import Mathlib

/-!
Verification development for the session habit ledger of the habit-tracker
dashboard (`src/app.py`).

The core modelled here is the rolling seven-day ledger of daily habit/mood
records and the derived-metrics computation:

* an entry is a Python dict `{"date": iso-string, "mood": int, habit keys...}`
  where each of the five habit keys may be absent (partial demo or external
  data).  We model the date as an integer day number — the source only ever
  compares ISO date strings for equality, and `date.isoformat` is injective,
  so equality of day numbers is a faithful model of equality of the strings.
  Habit keys become an enumerated type (`wake`/`water`/`study`/`workout`/
  `sleep` from the `HABITS` table), and a possibly-missing boolean value is
  an `Option Bool` with Python's truthiness (`None` is falsy).
* `_init_demo_history` (src/app.py lines 191-217) seeds the ledger;
* `_get_today_entry` (lines 236-248) is the find-or-create operation;
* `_save_today` (lines 289-299) is the upsert: replace-in-place the first
  entry whose date equals today's, else append; then `history[-7:]`;
* the today summary (lines 305-307) and the chart series (lines 318-331)
  are the metrics projector.  Percentages are `round(k/5*100)`: for
  `k ∈ 0..5` the float expression `(k/5)*100` evaluates exactly to the
  double `20k` (each intermediate rounds to the representable value whose
  rounding is exact), so the computation over `ℚ` with round-half-to-even
  is value-faithful to the float path.
-/

/-- Habit keys from the `HABITS` table (src/app.py lines 179-185); the
source uses the strings "wake", "water", "study", "workout", "sleep" as
dict keys and only ever looks them up, so an enumerated type is a faithful
model. -/
inductive HabitKey where
  | wake
  | water
  | study
  | workout
  | sleep
deriving DecidableEq, Repr

/-- The fixed habit-definition list `HABITS` (keys only; emoji and label are
display-only). -/
def HABITS : List HabitKey := [.wake, .water, .study, .workout, .sleep]

/-- One ledger record, modelling the Python dict
`{"date": ..., "mood": ..., "wake": ..., ...}`.  Each habit key may be
absent from the dict, hence `Option Bool`; `date` is the day number of the
ISO date string (see module comment). -/
structure Entry where
  date : Int
  mood : Int
  wake : Option Bool
  water : Option Bool
  study : Option Bool
  workout : Option Bool
  sleep : Option Bool
deriving DecidableEq, Repr

/-- Python `entry.get(key)` for a habit key: the stored value, or `none`
when the key is absent from the dict. -/
def Entry.get (e : Entry) : HabitKey → Option Bool
  | .wake => e.wake
  | .water => e.water
  | .study => e.study
  | .workout => e.workout
  | .sleep => e.sleep

/-- Python truthiness of a value-or-`None`: `None` is falsy, a `bool` is
itself. -/
def truthy (v : Option Bool) : Bool := v.getD false

/-- Python `l[-n:]` for `n ≥ 1`: the last `n` elements of `l` (all of `l`
when it is shorter). -/
def lastN (n : Nat) (l : List α) : List α := l.drop (l.length - n)

/-- Loop of `_save_today` (src/app.py lines 291-296): scan for the first
entry whose date equals the key; if found, overwrite that position with
`entry` and stop (`some` of the updated list), else `none`. -/
def replaceFirst (key : Int) (entry : Entry) : List Entry → Option (List Entry)
  | [] => none
  | e :: rest =>
      if e.date = key then some (entry :: rest)
      else (replaceFirst key entry rest).map (e :: ·)

/-- `_save_today` (src/app.py lines 289-299): replace in place the first
entry whose date equals `key` (in the source, today's date — which is also
the saved entry's own date), else append; then keep the last 7
(`history[-7:]`). -/
def save_today (key : Int) (entry : Entry) (history : List Entry) : List Entry :=
  match replaceFirst key entry history with
  | some h => lastN 7 h
  | none => lastN 7 (history ++ [entry])

/-- The upsert as invoked by the app: `_save_today(entry)` keyed by today's
date, where the saved entry's `"date"` field always equals today's date. -/
def upsert (entry : Entry) (history : List Entry) : List Entry :=
  save_today entry.date entry history

/-- The fresh all-false / mood-6 entry built by `_get_today_entry`
(src/app.py lines 242-244) and for today by `_init_demo_history`
(lines 213-215). -/
def default_today_entry (d : Int) : Entry :=
  { date := d, mood := 6, wake := some false, water := some false,
    study := some false, workout := some false, sleep := some false }

/-- `_get_today_entry` (src/app.py lines 236-248), generalised over the
requested date: return the first entry whose date matches; otherwise build
the default entry, append it, keep the last 7, and return it. -/
def get_today_entry (d : Int) (history : List Entry) : Entry × List Entry :=
  match history.find? (fun e => e.date == d) with
  | some e => (e, history)
  | none =>
      let entry_today := default_today_entry d
      (entry_today, lastN 7 (history ++ [entry_today]))

/-- The fixed demo table `patterns` of `_init_demo_history`
(src/app.py lines 196-203): six rows of five 0/1 habit flags and a mood. -/
def PATTERNS : List (List Nat × Int) :=
  [([1, 1, 0, 0, 1], 6),
   ([1, 0, 1, 0, 1], 7),
   ([1, 1, 1, 0, 0], 5),
   ([0, 1, 1, 1, 0], 8),
   ([1, 1, 1, 1, 0], 9),
   ([0, 0, 1, 1, 1], 7)]

/-- One demo entry: date `d`, mood from the row, habit flags from the row
via `zip(HABITS, checks)` and Python `bool(c)`. -/
def patternEntry (d : Int) (row : List Nat × Int) : Entry :=
  { date := d, mood := row.2,
    wake := some (row.1.getD 0 0 != 0),
    water := some (row.1.getD 1 0 != 0),
    study := some (row.1.getD 2 0 != 0),
    workout := some (row.1.getD 3 0 != 0),
    sleep := some (row.1.getD 4 0 != 0) }

/-- `_init_demo_history` (src/app.py lines 191-217), generalised over
today's day number: the loop `for i in range(6, 0, -1)` uses row `6 - i`
for day `today - i`; with `j := 6 - i` this is row `j` for day
`today - (6 - j)`, `j = 0..5`; then the default entry for today is
appended. -/
def init_demo_history (today : Int) : List Entry :=
  ((List.range 6).map fun (j : Nat) =>
    patternEntry (today - (6 - (j : Int))) (PATTERNS.getD j ([], 0)))
    ++ [default_today_entry today]

/-- Round half to even on `ℚ`, the rounding of Python `round` and numpy
`Series.round` (banker's rounding). -/
def roundHalfEven (q : ℚ) : ℤ :=
  if q - ⌊q⌋ < 1/2 then ⌊q⌋
  else if 1/2 < q - ⌊q⌋ then ⌊q⌋ + 1
  else if ⌊q⌋ % 2 = 0 then ⌊q⌋ else ⌊q⌋ + 1

/-- `checked_count` (src/app.py line 305):
`sum(1 for key, _, _ in HABITS if today_entry.get(key))` — the number of
habit keys whose looked-up value is truthy. -/
def checked_count (e : Entry) : Nat :=
  HABITS.countP fun k => truthy (e.get k)

/-- `achievement` (src/app.py line 307):
`round((checked_count / total) * 100)` with `total = len(HABITS)`. -/
def achievement (e : Entry) : ℤ :=
  roundHalfEven ((checked_count e : ℚ) / (HABITS.length : ℚ) * 100)

/-- The per-row `achieved` column (src/app.py line 326):
`df[[k for k, _, _ in HABITS]].sum(axis=1)` — missing keys contribute 0
(a wholly missing column is filled with `False` on line 320-322, and a
row-wise `NaN` is skipped by the sum), `True` contributes 1. -/
def achieved (e : Entry) : Nat :=
  (HABITS.map fun k => if truthy (e.get k) then 1 else 0).sum

/-- The per-row `achievement_pct` column (src/app.py line 327):
`(df["achieved"] / total * 100).round(0).astype(int)`. -/
def achievement_pct (e : Entry) : ℤ :=
  roundHalfEven ((achieved e : ℚ) / (HABITS.length : ℚ) * 100)

/-- The chart series (src/app.py lines 318-331): one row per ledger entry,
in ledger order, carrying the entry's date and its `achievement_pct`.
The `%m/%d` display reformatting of the date column is presentation only
and is not modelled. -/
def projectSeries (history : List Entry) : List (Int × ℤ) :=
  history.map fun e => (e.date, achievement_pct e)

/-- The whole chart block (src/app.py lines 318-331) as a state-passing
step on the session history: it computes the series on a copied frame
(`pd.DataFrame(st.session_state.history).copy()`) and contains no
assignment to `st.session_state.history`, so the second component — the
session history after the block — is the input history. -/
def chart_block (history : List Entry) : List (Int × ℤ) × List Entry :=
  (projectSeries history, history)

/-- Normalisation of a partial entry: fill every missing habit key with
`false` (the defaulting the spec prescribes for partial data). -/
def normalizeEntry (e : Entry) : Entry :=
  { e with
    wake := some (truthy e.wake),
    water := some (truthy e.water),
    study := some (truthy e.study),
    workout := some (truthy e.workout),
    sleep := some (truthy e.sleep) }

/-- Error type of the today projector. -/
inductive ProjError where
  | notFound
deriving DecidableEq, Repr

/-- The today summary `{checkedCount, totalHabits, achievementPct, mood}`
(src/app.py lines 305-315). -/
structure TodaySummary where
  checkedCount : Nat
  totalHabits : Nat
  achievementPct : ℤ
  mood : Int
deriving DecidableEq, Repr

/-- Modelled from the spec: the source has no standalone `projectToday`
function — the module-level code always computes today's summary from the
entry `_get_today_entry` just returned, so the lookup-or-`NotFoundError`
wrapper the spec describes is missing from `src/app.py`.  The lookup is
the source's date-equality scan (line 238-240) and the summary fields are
the source's computation (lines 305-307, 313-315). -/
def projectToday (history : List Entry) (todayDate : Int) :
    Except ProjError TodaySummary :=
  match history.find? (fun e => e.date == todayDate) with
  | none => .error .notFound
  | some e => .ok ⟨checked_count e, HABITS.length, achievement e, e.mood⟩

/-- Dates of a ledger are pairwise distinct (the at-most-one-entry-per-date
invariant). -/
abbrev datesNodup (l : List Entry) : Prop := (l.map Entry.date).Nodup

/-- Convenience constructor for concrete test entries: date `d`, mood `m`,
all five habits present and unchecked. -/
def mkEntry (d m : Int) : Entry :=
  { date := d, mood := m, wake := some false, water := some false,
    study := some false, workout := some false, sleep := some false }

/-! ### Helper lemmas about `lastN` -/

theorem lastN_length_le (n : Nat) (l : List α) : (lastN n l).length ≤ n := by
  simp [lastN]
  omega

theorem lastN_of_length_le (n : Nat) (l : List α) (h : l.length ≤ n) :
    lastN n l = l := by
  simp [lastN, Nat.sub_eq_zero_of_le h]

theorem lastN_subset (n : Nat) (l : List α) : lastN n l ⊆ l :=
  List.drop_subset _ _

theorem lastN_append_of_le (n : Nat) (l m : List α) (h : n ≤ m.length) :
    lastN n (l ++ m) = lastN n m := by
  unfold lastN
  rw [List.drop_append_eq_append_drop]
  rw [List.drop_eq_nil_of_le (by simp; omega)]
  simp
  congr 1
  omega

theorem lastN_lastN_append (n : Nat) (l m : List α) :
    lastN n (lastN n l ++ m) = lastN n (l ++ m) := by
  unfold lastN
  rw [List.drop_append_eq_append_drop, List.drop_append_eq_append_drop,
    List.drop_drop]
  simp only [List.length_append, List.length_drop]
  congr 2 <;> omega

theorem lastN_length_eq (n : Nat) (l : List α) (h : n ≤ l.length) :
    (lastN n l).length = n := by
  simp [lastN]
  omega

theorem lastN_append_singleton (n : Nat) (hn : 1 ≤ n) (l : List α) (a : α) :
    lastN n (l ++ [a]) = l.drop (l.length + 1 - n) ++ [a] := by
  unfold lastN
  rw [List.drop_append_eq_append_drop]
  rw [show (l ++ [a]).length - n = l.length + 1 - n by simp]
  rw [show l.length + 1 - n - l.length = 0 by omega]
  rfl

theorem getLast?_lastN_append (n : Nat) (hn : 1 ≤ n) (l : List α) (a : α) :
    (lastN n (l ++ [a])).getLast? = some a := by
  rw [lastN_append_singleton n hn l a]
  exact List.getLast?_concat _

/-! ### Helper lemmas about `replaceFirst` and `save_today` -/

theorem replaceFirst_eq_none_iff (key : Int) (a : Entry) (l : List Entry) :
    replaceFirst key a l = none ↔ ∀ x ∈ l, x.date ≠ key := by
  induction l with
  | nil => simp [replaceFirst]
  | cons e rest ih =>
      by_cases h : e.date = key
      · simp [replaceFirst, h]
      · simp [replaceFirst, h, ih]

theorem replaceFirst_length (key : Int) (a : Entry) (l l2 : List Entry)
    (h : replaceFirst key a l = some l2) : l2.length = l.length := by
  induction l generalizing l2 with
  | nil => simp [replaceFirst] at h
  | cons e rest ih =>
      by_cases he : e.date = key
      · simp [replaceFirst, he] at h
        subst h
        simp
      · simp [replaceFirst, he] at h
        obtain ⟨l3, h3, rfl⟩ := h
        simp [ih l3 h3]

theorem replaceFirst_map_date (a : Entry) (l l2 : List Entry)
    (h : replaceFirst a.date a l = some l2) :
    l2.map Entry.date = l.map Entry.date := by
  induction l generalizing l2 with
  | nil => simp [replaceFirst] at h
  | cons e rest ih =>
      by_cases he : e.date = a.date
      · simp [replaceFirst, he] at h
        subst h
        simp [he]
      · simp [replaceFirst, he] at h
        obtain ⟨l3, h3, rfl⟩ := h
        simp [ih l3 h3]

theorem replaceFirst_self (a : Entry) (l l2 : List Entry)
    (h : replaceFirst a.date a l = some l2) :
    replaceFirst a.date a l2 = some l2 := by
  induction l generalizing l2 with
  | nil => simp [replaceFirst] at h
  | cons e rest ih =>
      by_cases he : e.date = a.date
      · simp [replaceFirst, he] at h
        subst h
        simp [replaceFirst]
      · simp [replaceFirst, he] at h
        obtain ⟨l3, h3, rfl⟩ := h
        simp [replaceFirst, he, ih l3 h3]

theorem replaceFirst_append_self (a : Entry) (l : List Entry)
    (h : ∀ x ∈ l, x.date ≠ a.date) :
    replaceFirst a.date a (l ++ [a]) = some (l ++ [a]) := by
  induction l with
  | nil => simp [replaceFirst]
  | cons e rest ih =>
      have he : e.date ≠ a.date := h e (by simp)
      simp only [List.cons_append, replaceFirst, if_neg he, List.append_eq]
      rw [ih fun x hx => h x (by simp [hx])]
      rfl

theorem upsert_of_fresh (e : Entry) (l : List Entry)
    (h : ∀ x ∈ l, x.date ≠ e.date) :
    upsert e l = lastN 7 (l ++ [e]) := by
  unfold upsert save_today
  rw [(replaceFirst_eq_none_iff e.date e l).2 h]

/-! ### Helper lemmas about the percentage computation -/

theorem roundHalfEven_intCast (n : ℤ) : roundHalfEven (n : ℚ) = n := by
  unfold roundHalfEven
  norm_num

theorem checked_count_le_five (e : Entry) : checked_count e ≤ 5 :=
  List.countP_le_length _

theorem achieved_eq_checked (e : Entry) : achieved e = checked_count e := by
  rcases e with ⟨d, m, w, x, y, z, u⟩
  simp only [achieved, checked_count, HABITS, Entry.get, List.map_cons,
    List.map_nil, List.sum_cons, List.sum_nil, List.countP_cons, List.countP_nil]
  ring

theorem achievement_eq (e : Entry) :
    achievement e = 20 * (checked_count e : ℤ) := by
  unfold achievement
  have h5 : ((HABITS.length : Nat) : ℚ) = 5 := by norm_num [HABITS]
  rw [h5, show ((checked_count e : ℚ)) / 5 * 100 =
    (((20 * (checked_count e : ℤ) : ℤ)) : ℚ) by push_cast; ring,
    roundHalfEven_intCast]

theorem achievement_pct_eq (e : Entry) :
    achievement_pct e = 20 * (achieved e : ℤ) := by
  unfold achievement_pct
  have h5 : ((HABITS.length : Nat) : ℚ) = 5 := by norm_num [HABITS]
  rw [h5, show ((achieved e : ℚ)) / 5 * 100 =
    (((20 * (achieved e : ℤ) : ℤ)) : ℚ) by push_cast; ring,
    roundHalfEven_intCast]

/-! ### Helper lemmas about normalisation -/

theorem normalizeEntry_get (e : Entry) (k : HabitKey) :
    truthy ((normalizeEntry e).get k) = truthy (e.get k) := by
  cases k <;> rfl

theorem normalizeEntry_date (e : Entry) : (normalizeEntry e).date = e.date := rfl

theorem checked_count_normalize (e : Entry) :
    checked_count (normalizeEntry e) = checked_count e := by
  unfold checked_count
  exact List.countP_congr fun k _ => by rw [normalizeEntry_get]

theorem achieved_normalize (e : Entry) :
    achieved (normalizeEntry e) = achieved e := by
  rw [achieved_eq_checked, achieved_eq_checked, checked_count_normalize]

/-! ### Helper lemmas about date uniqueness and iterated upserts -/

theorem datesNodup_lastN (n : Nat) (l : List Entry) (h : datesNodup l) :
    datesNodup (lastN n l) := by
  unfold lastN
  show ((l.drop (l.length - n)).map Entry.date).Nodup
  rw [List.map_drop]
  exact List.Nodup.sublist (List.drop_sublist _ _) h

theorem datesNodup_upsert (e : Entry) (L : List Entry) (h : datesNodup L) :
    datesNodup (upsert e L) := by
  unfold upsert save_today
  cases hrep : replaceFirst e.date e L with
  | none =>
      have hfresh : e.date ∉ L.map Entry.date := by
        rw [replaceFirst_eq_none_iff] at hrep
        simp only [List.mem_map, not_exists]
        rintro x ⟨hx, hxd⟩
        exact hrep x hx hxd
      apply datesNodup_lastN
      show ((L ++ [e]).map Entry.date).Nodup
      rw [List.map_append]
      simp only [List.map_cons, List.map_nil]
      exact List.Nodup.append h (List.nodup_singleton _)
        (by simpa [List.disjoint_right] using hfresh)
  | some l2 =>
      apply datesNodup_lastN
      show (l2.map Entry.date).Nodup
      rw [replaceFirst_map_date e L l2 hrep]
      exact h

theorem datesNodup_foldl_upsert (L : List Entry) (h : datesNodup L)
    (es : List Entry) :
    datesNodup (es.foldl (fun l e => upsert e l) L) := by
  induction es generalizing L with
  | nil => exact h
  | cons e es ih => exact ih _ (datesNodup_upsert e L h)

theorem foldl_upsert_fresh (es : List Entry) :
    ∀ (L : List Entry) (e : Entry),
      (∀ x ∈ e :: es, ∀ y ∈ L, y.date ≠ x.date) →
      (e :: es).Pairwise (fun a b => a.date ≠ b.date) →
      (e :: es).foldl (fun l x => upsert x l) L = lastN 7 (L ++ e :: es) := by
  induction es with
  | nil =>
      intro L e hd _
      simpa using upsert_of_fresh e L fun y hy => hd e (by simp) y hy
  | cons e2 es ih =>
      intro L e hd hp
      have h1 : upsert e L = lastN 7 (L ++ [e]) :=
        upsert_of_fresh e L fun y hy => hd e (by simp) y hy
      have hp1 := List.pairwise_cons.1 hp
      have hfresh : ∀ x ∈ e2 :: es, ∀ y ∈ lastN 7 (L ++ [e]), y.date ≠ x.date := by
        intro x hx y hy
        rcases List.mem_append.1 (lastN_subset _ _ hy) with hyL | hye
        · exact hd x (by simp [hx]) y hyL
        · rw [List.mem_singleton.1 hye]
          exact hp1.1 x hx
      have hstep : (e :: e2 :: es).foldl (fun l x => upsert x l) L
          = (e2 :: es).foldl (fun l x => upsert x l) (upsert e L) := rfl
      rw [hstep, h1, ih (lastN 7 (L ++ [e])) e2 hfresh hp1.2, lastN_lastN_append]
      simp

/-! ### Claim theorems -/

/-- C2: for every ledger satisfying the at-most-one-entry-per-date invariant,
an upsert — and every sequence of upserts — never produces a ledger with two
entries sharing a date. -/
theorem upsert_no_duplicate_dates (L : List Entry) (h : datesNodup L) :
    (∀ e, datesNodup (upsert e L)) ∧
    ∀ es : List Entry, datesNodup (es.foldl (fun l e => upsert e l) L) :=
  ⟨fun e => datesNodup_upsert e L h, fun es => datesNodup_foldl_upsert L h es⟩

/-- Witness for `upsert_no_duplicate_dates` at a concrete ledger: a
replacing upsert, and a sequence of one replacing and one appending upsert,
keep the dates pairwise distinct. -/
theorem upsert_no_duplicate_dates_witness :
    datesNodup (upsert (mkEntry 5 1) [mkEntry 1 0, mkEntry 2 0]) ∧
    datesNodup ([mkEntry 2 9, mkEntry 9 9].foldl (fun l e => upsert e l)
      [mkEntry 1 0, mkEntry 2 0]) := by
  have h := upsert_no_duplicate_dates [mkEntry 1 0, mkEntry 2 0] (by decide)
  exact ⟨h.1 _, h.2 _⟩

/-- C4: for every entry, the achievement percentage of the today summary is
`round(checked_count/5*100)` (round half to even), equals `20 * checked_count`,
lies in {0, 20, 40, 60, 80, 100}, and the per-entry series percentage
computes the same value. -/
theorem achievement_percentage_correct (e : Entry) :
    achievement e =
      roundHalfEven ((checked_count e : ℚ) / (HABITS.length : ℚ) * 100) ∧
    achievement e = 20 * (checked_count e : ℤ) ∧
    (achievement e = 0 ∨ achievement e = 20 ∨ achievement e = 40 ∨
      achievement e = 60 ∨ achievement e = 80 ∨ achievement e = 100) ∧
    achievement_pct e = 20 * (achieved e : ℤ) ∧
    achievement_pct e = achievement e := by
  have h1 := achievement_eq e
  have h2 := achievement_pct_eq e
  have h3 := checked_count_le_five e
  have h4 := achieved_eq_checked e
  refine ⟨rfl, h1, ?_, h2, by rw [h1, h2, h4]⟩
  rw [h1]
  omega

/-- C7: projecting today's summary fails with `notFound` exactly when no
entry for the requested date is in the ledger, and when the scan finds an
entry it returns its `{checkedCount, totalHabits, achievementPct, mood}`. -/
theorem projectToday_spec (h : List Entry) (d : Int) :
    (projectToday h d = Except.error ProjError.notFound ↔
      ∀ e ∈ h, e.date ≠ d) ∧
    ∀ e, h.find? (fun x => x.date == d) = some e →
      projectToday h d =
        Except.ok ⟨checked_count e, HABITS.length, achievement e, e.mood⟩ := by
  cases hf : h.find? (fun x => x.date == d) with
  | none =>
      constructor
      · simp only [projectToday, hf]
        constructor
        · intro _ e he
          have := List.find?_eq_none.1 hf e he
          simpa using this
        · intro _
          trivial
      · intro e he
        exact absurd he (by simp)
  | some e =>
      constructor
      · simp only [projectToday, hf]
        constructor
        · intro hcontr
          exact absurd hcontr (by simp)
        · intro hall
          have hmem : e ∈ h := List.mem_of_find?_eq_some hf
          have hdate : e.date = d := by simpa using List.find?_some hf
          exact absurd hdate (hall e hmem)
      · intro e2 he2
        cases he2
        simp [projectToday, hf]

/-- Witness for `projectToday_spec`: on the one-entry ledger for date 3,
requesting date 4 yields `notFound` and requesting date 3 yields the
summary of the all-false mood-6 entry. -/
theorem projectToday_spec_witness :
    projectToday [mkEntry 3 6] 4 = Except.error ProjError.notFound ∧
    projectToday [mkEntry 3 6] 3 = Except.ok ⟨0, 5, 0, 6⟩ := by
  refine ⟨(projectToday_spec [mkEntry 3 6] 4).1.mpr (by decide), ?_⟩
  have h2 := (projectToday_spec [mkEntry 3 6] 3).2 (mkEntry 3 6) (by decide)
  rw [h2, show achievement (mkEntry 3 6) = 0 from by rw [achievement_eq]; decide]
  rfl

/-- C8: missing habit keys are read as `false` by every consuming
computation — filling them in explicitly (`normalizeEntry`) changes neither
the checked count, the achieved count, either percentage, nor the chart
series of any ledger. -/
theorem missing_keys_default_false (e : Entry) (h : List Entry) :
    checked_count (normalizeEntry e) = checked_count e ∧
    achieved (normalizeEntry e) = achieved e ∧
    achievement (normalizeEntry e) = achievement e ∧
    achievement_pct (normalizeEntry e) = achievement_pct e ∧
    projectSeries (h.map normalizeEntry) = projectSeries h := by
  refine ⟨checked_count_normalize e, achieved_normalize e, ?_, ?_, ?_⟩
  · rw [achievement_eq, achievement_eq, checked_count_normalize]
  · rw [achievement_pct_eq, achievement_pct_eq, achieved_normalize]
  · unfold projectSeries
    rw [List.map_map]
    refine List.map_congr_left fun x _ => ?_
    simp only [Function.comp_apply, normalizeEntry_date]
    rw [achievement_pct_eq, achievement_pct_eq, achieved_normalize]

/-- C9: the chart block computes the series from the ledger and leaves the
session ledger exactly as it was. -/
theorem projector_preserves_ledger (h : List Entry) :
    (chart_block h).2 = h ∧ (chart_block h).1 = projectSeries h :=
  ⟨rfl, rfl⟩

/-- C10: whenever find-or-create takes its creation branch (no entry for
the requested date), the created default entry is the last element of the
resulting trimmed ledger — in particular it is present — for a prior ledger
of any length. -/
theorem created_entry_survives_trim (L : List Entry) (d : Int)
    (hnone : L.find? (fun x => x.date == d) = none) :
    (get_today_entry d L).2.getLast? = some (default_today_entry d) ∧
    default_today_entry d ∈ (get_today_entry d L).2 ∧
    (get_today_entry d L).1 = default_today_entry d := by
  simp only [get_today_entry, hnone]
  rw [lastN_append_singleton 7 (by omega) L _]
  exact ⟨List.getLast?_concat _, by simp, trivial⟩

/-- Witness for `created_entry_survives_trim` on a degenerate 8-entry
ledger: the created entry for date 42 ends up last in the trimmed result. -/
theorem created_entry_survives_trim_witness :
    (get_today_entry 42 [mkEntry 1 0, mkEntry 2 0, mkEntry 3 0, mkEntry 4 0,
        mkEntry 5 0, mkEntry 6 0, mkEntry 7 0, mkEntry 8 0]).2.getLast? =
      some (default_today_entry 42) ∧
    default_today_entry 42 ∈ (get_today_entry 42 [mkEntry 1 0, mkEntry 2 0,
        mkEntry 3 0, mkEntry 4 0, mkEntry 5 0, mkEntry 6 0, mkEntry 7 0,
        mkEntry 8 0]).2 ∧
    (get_today_entry 42 [mkEntry 1 0, mkEntry 2 0, mkEntry 3 0, mkEntry 4 0,
        mkEntry 5 0, mkEntry 6 0, mkEntry 7 0, mkEntry 8 0]).1 =
      default_today_entry 42 :=
  created_entry_survives_trim _ 42 (by decide)

/-- C1 counterexample: applied to a ledger already holding dates 10-16,
the eight distinct-date upserts 16, 15, 14, 13, 12, 11, 10, 99 (in that
order) do NOT leave the 7 most-recently-upserted dates: replacement is
positional, so date 16 (the least recent upsert) survives and date 10 (the
second most recent) is evicted. -/
theorem upsert_window_eviction_cex :
    ([mkEntry 16 1, mkEntry 15 1, mkEntry 14 1, mkEntry 13 1, mkEntry 12 1,
        mkEntry 11 1, mkEntry 10 1, mkEntry 99 1].Pairwise
      fun a b => a.date ≠ b.date) ∧
    7 < ([mkEntry 16 1, mkEntry 15 1, mkEntry 14 1, mkEntry 13 1, mkEntry 12 1,
        mkEntry 11 1, mkEntry 10 1, mkEntry 99 1] : List Entry).length ∧
    ¬ ([mkEntry 16 1, mkEntry 15 1, mkEntry 14 1, mkEntry 13 1, mkEntry 12 1,
        mkEntry 11 1, mkEntry 10 1, mkEntry 99 1].foldl (fun l e => upsert e l)
        [mkEntry 10 0, mkEntry 11 0, mkEntry 12 0, mkEntry 13 0, mkEntry 14 0,
         mkEntry 15 0, mkEntry 16 0] =
      lastN 7 [mkEntry 16 1, mkEntry 15 1, mkEntry 14 1, mkEntry 13 1,
        mkEntry 12 1, mkEntry 11 1, mkEntry 10 1, mkEntry 99 1]) := by
  decide

/-- C1 (amended): when more than 7 upserts with pairwise-distinct dates,
none already a date of the starting ledger, are applied to any ledger, the
result is exactly the last 7 upserted entries in insertion order (so it has
exactly 7 entries); and an appending upsert always trims to the last 7
records by position. -/
theorem upsert_window_eviction (L es : List Entry)
    (hdisj : ∀ x ∈ es, ∀ y ∈ L, y.date ≠ x.date)
    (hnd : es.Pairwise fun a b => a.date ≠ b.date)
    (hlen : 7 < es.length) :
    es.foldl (fun l e => upsert e l) L = lastN 7 es ∧
    (es.foldl (fun l e => upsert e l) L).length = 7 ∧
    ∀ (l : List Entry) (a : Entry), (∀ y ∈ l, y.date ≠ a.date) →
      upsert a l = lastN 7 (l ++ [a]) := by
  obtain ⟨e, es2, rfl⟩ : ∃ e es2, es = e :: es2 := by
    cases es with
    | nil => simp at hlen
    | cons a b => exact ⟨a, b, rfl⟩
  have hmain := foldl_upsert_fresh es2 L e hdisj hnd
  have h7 : 7 ≤ (e :: es2).length := Nat.le_of_lt hlen
  refine ⟨?_, ?_, fun l a ha => upsert_of_fresh a l ha⟩
  · rw [hmain]
    exact lastN_append_of_le 7 L (e :: es2) h7
  · rw [hmain, lastN_append_of_le 7 L (e :: es2) h7]
    exact lastN_length_eq 7 _ h7

/-- Witness for `upsert_window_eviction`: eight fresh-date upserts into the
empty ledger leave exactly the last seven in insertion order. -/
theorem upsert_window_eviction_witness :
    [mkEntry 0 0, mkEntry 1 0, mkEntry 2 0, mkEntry 3 0, mkEntry 4 0,
        mkEntry 5 0, mkEntry 6 0, mkEntry 7 0].foldl (fun l e => upsert e l) [] =
      lastN 7 [mkEntry 0 0, mkEntry 1 0, mkEntry 2 0, mkEntry 3 0, mkEntry 4 0,
        mkEntry 5 0, mkEntry 6 0, mkEntry 7 0] ∧
    ([mkEntry 0 0, mkEntry 1 0, mkEntry 2 0, mkEntry 3 0, mkEntry 4 0,
        mkEntry 5 0, mkEntry 6 0, mkEntry 7 0].foldl
      (fun l e => upsert e l) []).length = 7 :=
  ⟨(upsert_window_eviction [] _ (by decide) (by decide) (by decide)).1,
   (upsert_window_eviction [] _ (by decide) (by decide) (by decide)).2.1⟩

/-- C3 counterexample: on a degenerate 8-entry ledger that already contains
the requested date 0, find-or-create returns the ledger unchanged, so the
returned ledger exceeds 7 entries. -/
theorem find_or_create_cex :
    (List.find? (fun x => x.date == (0 : Int)) [mkEntry 0 0, mkEntry 1 0,
        mkEntry 2 0, mkEntry 3 0, mkEntry 4 0, mkEntry 5 0, mkEntry 6 0,
        mkEntry 7 0]).isSome = true ∧
    ¬ ((get_today_entry 0 [mkEntry 0 0, mkEntry 1 0, mkEntry 2 0, mkEntry 3 0,
        mkEntry 4 0, mkEntry 5 0, mkEntry 6 0, mkEntry 7 0]).2.length ≤ 7) := by
  decide

/-- C3 (amended): find-or-create returns the found entry with the ledger
unchanged when the date is present; otherwise it appends exactly one
default (all-false, mood-6) entry, trims to the last 7, and returns it, and
then the returned ledger has at most 7 entries; the returned entry's date
always equals the requested date; and the returned ledger has at most 7
entries whenever the input ledger has at most 7 entries. -/
theorem find_or_create_spec (L : List Entry) (d : Int) :
    (∀ e, L.find? (fun x => x.date == d) = some e →
      get_today_entry d L = (e, L)) ∧
    (L.find? (fun x => x.date == d) = none →
      get_today_entry d L =
        (default_today_entry d, lastN 7 (L ++ [default_today_entry d])) ∧
      (get_today_entry d L).2.length ≤ 7) ∧
    (get_today_entry d L).1.date = d ∧
    (L.length ≤ 7 → (get_today_entry d L).2.length ≤ 7) := by
  cases hf : L.find? (fun x => x.date == d) with
  | some e =>
      have hdate : e.date = d := by simpa using List.find?_some hf
      simp only [get_today_entry, hf]
      refine ⟨?_, ?_, hdate, fun hl => hl⟩
      · intro e2 he2
        cases he2
        rfl
      · intro hn
        exact absurd hn (by simp)
  | none =>
      simp only [get_today_entry, hf]
      refine ⟨?_, fun _ => ⟨trivial, lastN_length_le 7 _⟩, rfl, fun _ => lastN_length_le 7 _⟩
      intro e2 he2
      exact absurd he2 (by simp)

/-- Witness for `find_or_create_spec`: looking up the present date 2 in a
one-entry ledger returns that entry and the unchanged ledger; looking up
the absent date 3 appends the default entry; the result stays within 7. -/
theorem find_or_create_spec_witness :
    get_today_entry 2 [mkEntry 2 5] = (mkEntry 2 5, [mkEntry 2 5]) ∧
    get_today_entry 3 [mkEntry 2 5] =
      (default_today_entry 3, lastN 7 ([mkEntry 2 5] ++ [default_today_entry 3])) ∧
    (get_today_entry 3 [mkEntry 2 5]).2.length ≤ 7 :=
  ⟨(find_or_create_spec [mkEntry 2 5] 2).1 (mkEntry 2 5) (by decide),
   ((find_or_create_spec [mkEntry 2 5] 3).2.1 (by decide)).1,
   ((find_or_create_spec [mkEntry 2 5] 3).2.1 (by decide)).2⟩

/-- C5 counterexample: on a degenerate 8-entry ledger whose first entry has
the upserted date, the first upsert replaces in place and then trims the
replacement away, so the second upsert appends instead — the two results
differ. -/
theorem upsert_idempotent_cex :
    ¬ (upsert (mkEntry 0 5) (upsert (mkEntry 0 5) [mkEntry 0 0, mkEntry 1 0,
        mkEntry 2 0, mkEntry 3 0, mkEntry 4 0, mkEntry 5 0, mkEntry 6 0,
        mkEntry 7 0]) =
      upsert (mkEntry 0 5) [mkEntry 0 0, mkEntry 1 0, mkEntry 2 0, mkEntry 3 0,
        mkEntry 4 0, mkEntry 5 0, mkEntry 6 0, mkEntry 7 0]) := by
  decide

/-- C5 (amended): upserting the same entry twice yields the same ledger as
upserting it once, for every ledger with at most 7 entries (every ledger
the application can construct) and every entry. -/
theorem upsert_idempotent (l : List Entry) (e : Entry) (h : l.length ≤ 7) :
    upsert e (upsert e l) = upsert e l := by
  cases hrep : replaceFirst e.date e l with
  | some l2 =>
      have hlen := replaceFirst_length e.date e l l2 hrep
      have h2 : upsert e l = l2 := by
        unfold upsert save_today
        rw [hrep]
        exact lastN_of_length_le 7 l2 (by omega)
      rw [h2]
      unfold upsert save_today
      rw [replaceFirst_self e l l2 hrep]
      exact lastN_of_length_le 7 l2 (by omega)
  | none =>
      have hfr := (replaceFirst_eq_none_iff e.date e l).1 hrep
      have h2 : upsert e l = lastN 7 (l ++ [e]) := upsert_of_fresh e l hfr
      rw [h2, lastN_append_singleton 7 (by omega) l e]
      unfold upsert save_today
      have hfr2 : ∀ x ∈ l.drop (l.length + 1 - 7), x.date ≠ e.date :=
        fun x hx => hfr x (List.drop_subset _ _ hx)
      rw [replaceFirst_append_self e _ hfr2]
      apply lastN_of_length_le
      simp
      omega

/-- Witness for `upsert_idempotent` at a concrete one-entry ledger. -/
theorem upsert_idempotent_witness :
    upsert (mkEntry 1 1) (upsert (mkEntry 1 1) [mkEntry 0 0]) =
      upsert (mkEntry 1 1) [mkEntry 0 0] :=
  upsert_idempotent [mkEntry 0 0] (mkEntry 1 1) (by decide)

/-- C6: seeding for any today produces exactly 7 entries — the six
preceding days from the fixed pattern table in order, then today's
all-false mood-6 entry — and is deterministic in today. -/
theorem seed_demo_history_spec (t : Int) :
    (init_demo_history t).length = 7 ∧
    init_demo_history t =
      [⟨t - 6, 6, some true, some true, some false, some false, some true⟩,
       ⟨t - 5, 7, some true, some false, some true, some false, some true⟩,
       ⟨t - 4, 5, some true, some true, some true, some false, some false⟩,
       ⟨t - 3, 8, some false, some true, some true, some true, some false⟩,
       ⟨t - 2, 9, some true, some true, some true, some true, some false⟩,
       ⟨t - 1, 7, some false, some false, some true, some true, some true⟩,
       default_today_entry t] ∧
    init_demo_history t = init_demo_history t := by
  refine ⟨rfl, ?_, rfl⟩
  simp only [init_demo_history, patternEntry, PATTERNS,
    show List.range 6 = [0, 1, 2, 3, 4, 5] from rfl, List.map_cons, List.map_nil,
    List.getD, List.cons_append, List.nil_append]
  norm_num

